import Mathlib

/-!
Verification development for the `cozy` live-markdown editor.

The editor core (`WysiwygEditor`) watches `input` events, classifies the text
around the caret against markdown trigger patterns, and rewrites the DOM.
We embed the detection regexes as executable matchers over `List Char`
(faithful to JavaScript regex semantics, including greediness and
backtracking), the DOM surgery performed by the six `replaceWith*` routines
as pure functions on a local tree context, and the persistence layer
(`DatabaseService`) as a pure record store.
-/

namespace Cozy

/-- Characters matched by the JavaScript `\s` character class
(the ASCII whitespace set plus NBSP; exotic unicode spaces are
not produced by the editor). -/
def jsWhitespace (c : Char) : Bool :=
  c == ' ' || c == '\t' || c == '\n' || c == '\r' || c == '\x0b' ||
    c == '\x0c' || c == ' '

/-- Length of the maximal run of the character `c` at the head of the list. -/
def countLeading (c : Char) : List Char → Nat
  | [] => 0
  | x :: xs => if x == c then countLeading c xs + 1 else 0

/-- Greedy matching of `\s+(.+)$` against `rest`, given that the first `j`
characters of `rest` are whitespace: try `\s+` of length `j`, `j-1`, ..., `1`
(the regex engine backtracks from the greedy maximum) and return the first
capture of `.+` that is non-empty and crosses no newline (`.` excludes `\n`
and the pattern is not in multiline mode, so `$` is end of input). -/
def wsBacktrack (rest : List Char) : Nat → Option (List Char)
  | 0 => none
  | j + 1 =>
    let t := rest.drop (j + 1)
    if !t.isEmpty && !t.contains '\n' then some t else wsBacktrack rest j

/-- The test `beforeCursor.match(/^(#{1,6})\s+(.+)$/)` from
`processSpaceTriggeredFormatting` (src/unnamed/part_000 line 108).
Returns the number of leading `#` characters (the heading level) and the
capture of `(.+)`. With seven or more leading hashes no split of `#{1,6}`
can be followed by whitespace, so the match fails. -/
def headingMatch (s : List Char) : Option (Nat × List Char) :=
  let k := countLeading '#' s
  if 1 ≤ k ∧ k ≤ 6 then
    let rest := s.drop k
    let m := (rest.takeWhile jsWhitespace).length
    (wsBacktrack rest m).map (fun t => (k, t))
  else none

/-- The test `beforeCursor.match(/^[-\*\+]\s*(.*)$/)` (line 118): a list
bullet, then `\s*` eats the maximal whitespace run; `(.*)` captures the
remainder, which must contain no newline (backtracking into the whitespace
run cannot remove a newline from the capture, so the match simply fails). -/
def listMatch (s : List Char) : Option (List Char) :=
  match s with
  | c :: rest =>
    if c == '-' || c == '*' || c == '+' then
      let t := rest.dropWhile jsWhitespace
      if t.contains '\n' then none else some t
    else none
  | [] => none

/-- The test `beforeCursor.match(/^>\s*(.*)$/)` (line 126). -/
def blockquoteMatch (s : List Char) : Option (List Char) :=
  match s with
  | c :: rest =>
    if c == '>' then
      let t := rest.dropWhile jsWhitespace
      if t.contains '\n' then none else some t
    else none
  | [] => none

/-- Attempt `\*\*([^*]+)\*\*` anchored at the head of `s`: two stars, a
non-empty maximal run of non-star characters, then two stars ([^*]+ is
greedy and shortening it only puts a non-star where a star is required,
so only the maximal run can succeed). -/
def tryBoldStar (s : List Char) : Option (List Char) :=
  match s with
  | '*' :: '*' :: rest =>
    let r := rest.takeWhile (fun c => c != '*')
    if !r.isEmpty && (rest.drop r.length).take 2 == ['*', '*'] then some r
    else none
  | _ => none

/-- Attempt `__([^_]+)__` anchored at the head of `s`. -/
def tryBoldUnder (s : List Char) : Option (List Char) :=
  match s with
  | '_' :: '_' :: rest =>
    let r := rest.takeWhile (fun c => c != '_')
    if !r.isEmpty && (rest.drop r.length).take 2 == ['_', '_'] then some r
    else none
  | _ => none

/-- Unanchored first-match search, as `String.prototype.match` with a
non-global regex: try each start position from the left, return the
match index together with the capture. -/
def findMatch (tryAt : List Char → Option (List Char)) :
    List Char → Option (Nat × List Char)
  | [] => none
  | c :: tl =>
    match tryAt (c :: tl) with
    | some r => some (0, r)
    | none => (findMatch tryAt tl).map (fun p => (p.1 + 1, p.2))

/-- Lines 146–149: `textContent.match(/\*\*([^*]+)\*\*/)`, falling back to
`textContent.match(/__([^_]+)__/)` when the star form finds nothing. -/
def boldMatch (s : List Char) : Option (Nat × List Char) :=
  match findMatch tryBoldStar s with
  | some r => some r
  | none => findMatch tryBoldUnder s

/-- Attempt `(?<!d)d([^d]+)d(?!d)` anchored at the current position, where
`d` is the italic delimiter (`*` or `_`) and `prev` is the character before
the position (lookbehind). `[^d]+` greedy takes the maximal delimiter-free
run; if the closing delimiter is doubled the negative lookahead fails and
backtracking cannot recover (a shorter run puts the closing delimiter on a
non-delimiter character). -/
def tryItalic (d : Char) (prev : Option Char) (s : List Char) :
    Option (List Char) :=
  match s with
  | c :: rest =>
    if c == d && prev != some d then
      let r := rest.takeWhile (fun x => x != d)
      let tl := rest.drop r.length
      if !r.isEmpty && tl.take 1 == [d] && (tl.drop 1).take 1 != [d] then
        some r
      else none
    else none
  | [] => none

/-- First-match search for the italic pattern, threading the previous
character for the lookbehind. -/
def findItalic (d : Char) : Option Char → List Char → Option (Nat × List Char)
  | _, [] => none
  | prev, c :: tl =>
    match tryItalic d prev (c :: tl) with
    | some r => some (0, r)
    | none => (findItalic d (some c) tl).map (fun p => (p.1 + 1, p.2))

/-- Lines 157–160: `/(?<!\*)\*([^*]+)\*(?!\*)/`, falling back to
`/(?<!_)_([^_]+)_(?!_)/`. -/
def italicMatch (s : List Char) : Option (Nat × List Char) :=
  match findItalic '*' none s with
  | some r => some r
  | none => findItalic '_' none s

/-- Attempt `` `([^`]+)` `` anchored at the head of `s`. -/
def tryCode (s : List Char) : Option (List Char) :=
  match s with
  | '`' :: rest =>
    let r := rest.takeWhile (fun c => c != '`')
    if !r.isEmpty && (rest.drop r.length).take 1 == ['`'] then some r
    else none
  | _ => none

/-- Line 168: `textContent.match(/`([^`]+)`/)`. -/
def codeMatch (s : List Char) : Option (Nat × List Char) :=
  findMatch tryCode s

/-- A node of the visual document tree: a text run or an element with a
tag and child nodes. -/
inductive DomNode where
  | text (s : List Char)
  | elem (tag : String) (children : List DomNode)

/-- `node.childNodes.length`. -/
def childCount : DomNode → Nat
  | DomNode.text _ => 0
  | DomNode.elem _ cs => cs.length

/-- `document.createElement(tag)` followed by `el.textContent = s`:
setting `textContent` to a non-empty string creates exactly one text
child; setting it to the empty string leaves the element childless. -/
def mkElem (tag : String) (s : List Char) : DomNode :=
  DomNode.elem tag (if s.isEmpty then [] else [DomNode.text s])

/-- The siblings of the target text run inside its parent: the parent's
child list is `before ++ [theTextRun] ++ after`. -/
structure ParentCtx where
  before : List DomNode
  after : List DomNode

/-- `range.startContainer`: either a text node (with its `textContent` and
its `parentNode`, `none` when the node is detached) or a non-text node. -/
inductive Container where
  | textRun (content : List Char) (parent : Option ParentCtx)
  | element

/-- The selection range read by the processing routines. Only the start
container and start offset are ever consulted by the code; `endDiffers`
records whether the range's end lies in a different node. -/
structure DomRange where
  startContainer : Container
  startOffset : Nat
  endDiffers : Bool

/-- Caret produced by a rewrite: `range.setStart(n, offset)` inside a
newly built node, or `range.setStartAfter(el)`, i.e. position `idx` in the
parent's child list. -/
inductive Caret where
  | inNode (n : DomNode) (offset : Nat)
  | inParentAt (idx : Nat)

/-- Result of a successful splice: the parent's new child list and the
caret set by the routine. -/
structure Splice where
  children : List DomNode
  caret : Caret

/-- The six trigger kinds. -/
inductive TriggerKind where
  | heading (level : Nat)
  | list
  | blockquote
  | bold
  | italic
  | code

/-- Result of one processing call: no trigger detected, or a trigger of
some kind fired (`none` splice when the target text run was detached, in
which case the routine mutates nothing). -/
inductive ProcResult where
  | noop
  | fired (kind : TriggerKind) (splice : Option Splice)

/-- The kind of the trigger a processing call fired, if any. -/
def kindOf : ProcResult → Option TriggerKind
  | ProcResult.noop => none
  | ProcResult.fired k _ => some k

/-- JavaScript `s.trim()` truthiness: `s` trims to a non-empty string
exactly when it contains a non-whitespace character. -/
def jsTrimNonEmpty (s : List Char) : Bool :=
  s.any (fun c => !jsWhitespace c)

/-- `replaceWithHeading` (lines 176–212): build `h<level>` with the
captured text, insert it before the text run, insert the after-cursor text
as a plain text node only when it trims non-empty, remove the text run,
and set the caret to `(heading, heading.childNodes.length)`. When the text
run has no parent, nothing is mutated and no caret is set. -/
def replaceWithHeading (level : Nat) (text afterText : List Char)
    (parent : Option ParentCtx) : Option Splice :=
  match parent with
  | none => none
  | some p =>
    let heading := mkElem ("h" ++ toString level) text
    let afterNodes :=
      if jsTrimNonEmpty afterText then [DomNode.text afterText] else []
    some ⟨p.before ++ [heading] ++ afterNodes ++ p.after,
          Caret.inNode heading (childCount heading)⟩

/-- `replaceWithList` (lines 214–250): an `li` holding the captured text,
wrapped in a fresh `ul`; caret at `(listItem, listItem.childNodes.length)`. -/
def replaceWithList (text afterText : List Char)
    (parent : Option ParentCtx) : Option Splice :=
  match parent with
  | none => none
  | some p =>
    let listItem := mkElem "li" text
    let list := DomNode.elem "ul" [listItem]
    let afterNodes :=
      if jsTrimNonEmpty afterText then [DomNode.text afterText] else []
    some ⟨p.before ++ [list] ++ afterNodes ++ p.after,
          Caret.inNode listItem (childCount listItem)⟩

/-- `replaceWithBlockquote` (lines 252–285). -/
def replaceWithBlockquote (text afterText : List Char)
    (parent : Option ParentCtx) : Option Splice :=
  match parent with
  | none => none
  | some p =>
    let blockquote := mkElem "blockquote" text
    let afterNodes :=
      if jsTrimNonEmpty afterText then [DomNode.text afterText] else []
    some ⟨p.before ++ [blockquote] ++ afterNodes ++ p.after,
          Caret.inNode blockquote (childCount blockquote)⟩

/-- `replaceWithBold` (lines 287–328): split the run at the match
(`substring(0, startIndex)` and `substring(startIndex + fullMatch.length)`,
the full star or underscore match being four characters longer than the
capture), keep both slices as plain text nodes when non-empty (no
trimming here), insert `strong`, and set the caret immediately after it
(`setStartAfter`), i.e. in the parent at the index following the element. -/
def replaceWithBold (textContent : List Char) (startIndex : Nat)
    (content : List Char) (parent : Option ParentCtx) : Option Splice :=
  match parent with
  | none => none
  | some p =>
    let beforeText := textContent.take startIndex
    let afterText := textContent.drop (startIndex + (content.length + 4))
    let beforeNodes :=
      if beforeText.isEmpty then [] else [DomNode.text beforeText]
    let bold := mkElem "strong" content
    let afterNodes :=
      if afterText.isEmpty then [] else [DomNode.text afterText]
    some ⟨p.before ++ beforeNodes ++ [bold] ++ afterNodes ++ p.after,
          Caret.inParentAt (p.before.length + beforeNodes.length + 1)⟩

/-- `replaceWithItalic` (lines 330–371); the full match is two characters
longer than the capture. -/
def replaceWithItalic (textContent : List Char) (startIndex : Nat)
    (content : List Char) (parent : Option ParentCtx) : Option Splice :=
  match parent with
  | none => none
  | some p =>
    let beforeText := textContent.take startIndex
    let afterText := textContent.drop (startIndex + (content.length + 2))
    let beforeNodes :=
      if beforeText.isEmpty then [] else [DomNode.text beforeText]
    let italic := mkElem "em" content
    let afterNodes :=
      if afterText.isEmpty then [] else [DomNode.text afterText]
    some ⟨p.before ++ beforeNodes ++ [italic] ++ afterNodes ++ p.after,
          Caret.inParentAt (p.before.length + beforeNodes.length + 1)⟩

/-- `replaceWithCode` (lines 373–414). -/
def replaceWithCode (textContent : List Char) (startIndex : Nat)
    (content : List Char) (parent : Option ParentCtx) : Option Splice :=
  match parent with
  | none => none
  | some p =>
    let beforeText := textContent.take startIndex
    let afterText := textContent.drop (startIndex + (content.length + 2))
    let beforeNodes :=
      if beforeText.isEmpty then [] else [DomNode.text beforeText]
    let code := mkElem "code" content
    let afterNodes :=
      if afterText.isEmpty then [] else [DomNode.text afterText]
    some ⟨p.before ++ beforeNodes ++ [code] ++ afterNodes ++ p.after,
          Caret.inParentAt (p.before.length + beforeNodes.length + 1)⟩

/-- `processSpaceTriggeredFormatting` (lines 94–133): bail out with no
selection; only act when the start container is a text node; split its
text at the start offset; try heading, then list, then blockquote, the
first match short-circuiting the rest. -/
def processSpaceTriggeredFormatting (sel : Option DomRange) : ProcResult :=
  match sel with
  | none => ProcResult.noop
  | some r =>
    match r.startContainer with
    | Container.element => ProcResult.noop
    | Container.textRun content parent =>
      let beforeCursor := content.take r.startOffset
      let afterCursor := content.drop r.startOffset
      match headingMatch beforeCursor with
      | some (level, text) =>
        ProcResult.fired (TriggerKind.heading level)
          (replaceWithHeading level text afterCursor parent)
      | none =>
        match listMatch beforeCursor with
        | some text =>
          ProcResult.fired TriggerKind.list
            (replaceWithList text afterCursor parent)
        | none =>
          match blockquoteMatch beforeCursor with
          | some text =>
            ProcResult.fired TriggerKind.blockquote
              (replaceWithBlockquote text afterCursor parent)
          | none => ProcResult.noop

/-- `processInlineFormatting` (lines 135–174): scan the whole text run,
bold before italic before code, first matching kind wins. -/
def processInlineFormatting (sel : Option DomRange) : ProcResult :=
  match sel with
  | none => ProcResult.noop
  | some r =>
    match r.startContainer with
    | Container.element => ProcResult.noop
    | Container.textRun content parent =>
      match boldMatch content with
      | some (i, c) =>
        ProcResult.fired TriggerKind.bold (replaceWithBold content i c parent)
      | none =>
        match italicMatch content with
        | some (i, c) =>
          ProcResult.fired TriggerKind.italic
            (replaceWithItalic content i c parent)
        | none =>
          match codeMatch content with
          | some (i, c) =>
            ProcResult.fired TriggerKind.code
              (replaceWithCode content i c parent)
          | none => ProcResult.noop

/-- The fields of an `InputEvent` consulted by `processLiveFormatting`. -/
structure InputEvent where
  inputType : String
  data : Option String

/-- `processLiveFormatting` (lines 86–92): a typed space routes to the
block-trigger scan, any other `insertText` to the inline scan. -/
def processLiveFormatting (ev : InputEvent) (sel : Option DomRange) :
    ProcResult :=
  if ev.inputType = "insertText" ∧ ev.data = some " " then
    processSpaceTriggeredFormatting sel
  else if ev.inputType = "insertText" then
    processInlineFormatting sel
  else ProcResult.noop

/-- The `input` listener installed by `setupEventListeners` (lines 42–49):
when `isProcessing` is set the handler body is skipped entirely, so no
detection and no transform runs. -/
def handleInput (isProcessing : Bool) (ev : InputEvent)
    (sel : Option DomRange) : ProcResult :=
  if isProcessing then ProcResult.noop else processLiveFormatting ev sel

/-- Convenience: a collapsed-or-not selection whose start is at `off`
inside a text run with the given content and parent context. -/
def mkSel (content : List Char) (p : Option ParentCtx) (off : Nat)
    (ed : Bool) : Option DomRange :=
  some ⟨Container.textRun content p, off, ed⟩

/-- The DOM node containing a caret produced by a rewrite: for
`Caret.inNode n _` it is `n` itself, for `Caret.inParentAt _` it is the
parent element of the spliced children. -/
def caretContainer (c : Caret) : Container :=
  match c with
  | Caret.inNode n _ =>
    match n with
    | DomNode.elem _ _ => Container.element
    | DomNode.text s => Container.textRun s none
  | Caret.inParentAt _ => Container.element

/-- Whether a node is an element node. -/
def isElem : DomNode → Bool
  | DomNode.elem _ _ => true
  | DomNode.text _ => false

/-- The child list of a node. -/
def nodeChildren : DomNode → List DomNode
  | DomNode.text _ => []
  | DomNode.elem _ cs => cs

/-- Declarative characterization of the heading test
`/^(#{1,6})\s+(.+)$/`, stated without the backtracking search: with `k`
leading hashes and `rest` the text after them, the capture of `(.+)` is
`rest` minus its maximal whitespace run — except that when the run reaches
the end of the text, the engine backs off one character so that the last
whitespace character itself is captured. The match succeeds when
`1 ≤ k ≤ 6`, at least one whitespace character follows the hashes, at
least one character is left for the capture, and the capture crosses no
newline. -/
def headingSpecMatch (s : List Char) : Option (Nat × List Char) :=
  let k := countLeading '#' s
  let rest := s.drop k
  let j := min (rest.takeWhile jsWhitespace).length (rest.length - 1)
  if 1 ≤ k ∧ k ≤ 6 ∧ 1 ≤ j ∧ (rest.drop j).contains '\n' = false then
    some (k, rest.drop j)
  else none

/-- A row of the `documents` table (src/src/database.ts lines 32–39):
`id INTEGER PRIMARY KEY AUTOINCREMENT`, `content TEXT NOT NULL`, and an
`updated_at` timestamp. `CURRENT_TIMESTAMP` renders wall-clock time at
one-second granularity, so rows inserted within the same second carry
equal timestamps; a timestamp is modelled as the Nat index of its
second. -/
structure DocRow where
  id : Nat
  content : String
  updatedAt : Nat

/-- The open SQLite handle: the stored rows and the next `AUTOINCREMENT`
id. -/
structure DbState where
  rows : List DocRow
  nextId : Nat

/-- `saveContent` (database.ts lines 50–70): throws when the handle is
null, otherwise `INSERT INTO documents (content, updated_at) VALUES (?,
CURRENT_TIMESTAMP)` — always a fresh record, never an update. `now` is
the wall-clock second at which the INSERT runs; successive calls see
nondecreasing — not necessarily increasing — values, so two saves can
share a timestamp. -/
def saveContent (db : Option DbState) (content : String) (now : Nat) :
    Except String DbState :=
  match db with
  | none => Except.error "Database not initialized"
  | some d =>
    Except.ok ⟨d.rows ++ [⟨d.nextId, content, now⟩], d.nextId + 1⟩

/-- `getLatestContent` (database.ts lines 72–91): throws when the handle
is null, otherwise `SELECT content FROM documents ORDER BY updated_at
DESC LIMIT 1`, or null when the table is empty. The ORDER BY has no
tiebreaker and SQLite's order among rows with equal keys is unspecified,
so the call is modelled as a relation over its admissible outcomes: any
row whose `updated_at` is maximal may be the one whose content is
returned. -/
def getLatestAdmits (db : Option DbState)
    (out : Except String (Option String)) : Prop :=
  match db with
  | none => out = Except.error "Database not initialized"
  | some d =>
    (d.rows = [] ∧ out = Except.ok none) ∨
      (∃ r ∈ d.rows, (∀ q ∈ d.rows, q.updatedAt ≤ r.updatedAt) ∧
        out = Except.ok (some r.content))

/-- C1 (counterexample): typing the space that completes a bare `"# "` at
the start of an empty line triggers nothing at all: the heading pattern
demands at least one character after its whitespace, and neither the list
nor the blockquote pattern accepts a leading `#`. The claimed `h1` with
empty text is never produced. -/
theorem C1_cex_bare_heading_noop :
    processSpaceTriggeredFormatting
      (mkSel "# ".data (some ⟨[], []⟩) 2 false) = ProcResult.noop := rfl

/-- C1 (amended): typing the space completing `"<prefix> "` on an
otherwise empty line produces exactly one structural element of the
corresponding kind with empty text content and the caret inside it for
the list and blockquote triggers; the heading trigger, whose pattern
requires a non-empty remainder after the whitespace, fires on no bare
`#`-prefix of any level. -/
theorem C1_empty_line_block_triggers :
    (∀ c : Char, c = '-' ∨ c = '*' ∨ c = '+' →
      processSpaceTriggeredFormatting (mkSel [c, ' '] (some ⟨[], []⟩) 2 false) =
        ProcResult.fired TriggerKind.list
          (some ⟨[DomNode.elem "ul" [DomNode.elem "li" []]],
                 Caret.inNode (DomNode.elem "li" []) 0⟩)) ∧
    (processSpaceTriggeredFormatting (mkSel ['>', ' '] (some ⟨[], []⟩) 2 false) =
      ProcResult.fired TriggerKind.blockquote
        (some ⟨[DomNode.elem "blockquote" []],
               Caret.inNode (DomNode.elem "blockquote" []) 0⟩)) ∧
    (∀ k, 1 ≤ k → k ≤ 6 →
      processSpaceTriggeredFormatting
        (mkSel (List.replicate k '#' ++ [' ']) (some ⟨[], []⟩) (k + 1) false) =
        ProcResult.noop) := by
  refine ⟨?_, rfl, ?_⟩
  · rintro c (rfl | rfl | rfl) <;> rfl
  · intro k h1 h6
    interval_cases k <;> rfl

/-- C1 (witness): the list case at the `-` bullet. -/
theorem C1_witness :
    processSpaceTriggeredFormatting (mkSel ['-', ' '] (some ⟨[], []⟩) 2 false) =
      ProcResult.fired TriggerKind.list
        (some ⟨[DomNode.elem "ul" [DomNode.elem "li" []]],
               Caret.inNode (DomNode.elem "li" []) 0⟩) :=
  C1_empty_line_block_triggers.1 '-' (Or.inl rfl)

/-- C6: while `isProcessing` is set, the `input` listener skips its whole
body, so an insertion event caused by the rewriter's own mutations is
never re-interpreted: no detection runs and no transform fires. -/
theorem C6_reentrancy_guard (ev : InputEvent) (sel : Option DomRange) :
    handleInput true ev sel = ProcResult.noop := rfl

/-- C8 (amended): detection is a no-op when no selection exists or when
the range's start container is not a text run; a selection whose end lies
in a different node is not special-cased — processing reads only the
start container (see `C8_cex_multinode_selection`). -/
theorem C8_detection_noop_conditions :
    processSpaceTriggeredFormatting none = ProcResult.noop ∧
    processInlineFormatting none = ProcResult.noop ∧
    (∀ off ed,
      processSpaceTriggeredFormatting (some ⟨Container.element, off, ed⟩) =
        ProcResult.noop) ∧
    (∀ off ed,
      processInlineFormatting (some ⟨Container.element, off, ed⟩) =
        ProcResult.noop) :=
  ⟨rfl, rfl, fun _ _ => rfl, fun _ _ => rfl⟩

/-- C8 (counterexample): with a selection that spans multiple nodes
(`endDiffers = true`) detection is not a no-op: the code never inspects
the range's end, so a list trigger at the start container still fires and
rewrites the tree. -/
theorem C8_cex_multinode_selection :
    processSpaceTriggeredFormatting (mkSel "- ".data (some ⟨[], []⟩) 2 true) =
      ProcResult.fired TriggerKind.list
        (some ⟨[DomNode.elem "ul" [DomNode.elem "li" []]],
               Caret.inNode (DomNode.elem "li" []) 0⟩) ∧
    processSpaceTriggeredFormatting (mkSel "- ".data (some ⟨[], []⟩) 2 true) ≠
      ProcResult.noop := by
  constructor
  · rfl
  · intro h
    have h2 : ProcResult.fired TriggerKind.list
        (some ⟨[DomNode.elem "ul" [DomNode.elem "li" []]],
               Caret.inNode (DomNode.elem "li" []) 0⟩) = ProcResult.noop := h
    exact ProcResult.noConfusion h2

/-- C9: a transform on a detached text run (no parent) is a silent
no-op — each of the six rewrite routines guards every mutation and the
caret update behind the parent check, so nothing is spliced and no caret
is produced; the processing pipeline reports the detected kind but makes
no change. -/
theorem C9_detached_noop (lvl : Nat) (t a tc : List Char) (i : Nat)
    (content : List Char) (off : Nat) (ed : Bool) (k : TriggerKind)
    (s : Option Splice)
    (h : processSpaceTriggeredFormatting (mkSel content none off ed) =
      ProcResult.fired k s) :
    replaceWithHeading lvl t a none = none ∧
    replaceWithList t a none = none ∧
    replaceWithBlockquote t a none = none ∧
    replaceWithBold tc i t none = none ∧
    replaceWithItalic tc i t none = none ∧
    replaceWithCode tc i t none = none ∧
    s = none ∧
    (∀ k2 s2,
      processInlineFormatting (mkSel content none off ed) =
        ProcResult.fired k2 s2 → s2 = none) := by
  refine ⟨rfl, rfl, rfl, rfl, rfl, rfl, ?_, ?_⟩
  · rcases hh : headingMatch (content.take off) with _ | ⟨lvl2, t2⟩
    · rcases hl : listMatch (content.take off) with _ | t2
      · rcases hq : blockquoteMatch (content.take off) with _ | t2
        · simp [processSpaceTriggeredFormatting, mkSel, hh, hl, hq] at h
        · simp [processSpaceTriggeredFormatting, mkSel, hh, hl, hq,
            replaceWithBlockquote] at h
          exact h.2.symm
      · simp [processSpaceTriggeredFormatting, mkSel, hh, hl,
          replaceWithList] at h
        exact h.2.symm
    · simp [processSpaceTriggeredFormatting, mkSel, hh,
        replaceWithHeading] at h
      exact h.2.symm
  · intro k2 s2 h2
    rcases hb : boldMatch content with _ | ⟨i2, c2⟩
    · rcases hi : italicMatch content with _ | ⟨i2, c2⟩
      · rcases hc : codeMatch content with _ | ⟨i2, c2⟩
        · simp [processInlineFormatting, mkSel, hb, hi, hc] at h2
        · simp [processInlineFormatting, mkSel, hb, hi, hc,
            replaceWithCode] at h2
          exact h2.2.symm
      · simp [processInlineFormatting, mkSel, hb, hi,
          replaceWithItalic] at h2
        exact h2.2.symm
    · simp [processInlineFormatting, mkSel, hb, replaceWithBold] at h2
      exact h2.2.symm

/-- C9 (witness): instantiated at the detached list rewrite on `"- "`. -/
theorem C9_witness :
    replaceWithHeading 1 [] [] none = none ∧
    replaceWithList [] [] none = none ∧
    replaceWithBlockquote [] [] none = none ∧
    replaceWithBold [] 0 [] none = none ∧
    replaceWithItalic [] 0 [] none = none ∧
    replaceWithCode [] 0 [] none = none ∧
    (none : Option Splice) = none ∧
    (∀ k2 s2,
      processInlineFormatting (mkSel "- ".data none 2 false) =
        ProcResult.fired k2 s2 → s2 = none) :=
  C9_detached_noop 1 [] [] [] 0 "- ".data 2 false TriggerKind.list none rfl

/-- C3: at most one trigger fires per insertion event, by fixed
precedence. For the space-triggered block scan: a heading match wins
outright; a list match is consulted only when heading failed; a
blockquote match only when both failed; when all three fail nothing
happens. For the inline scan over the whole run: bold (star or
underscore form) before italic before inline code, and only the first
matching kind is transformed. -/
theorem C3_precedence :
    (∀ (content : List Char) (p : Option ParentCtx) (off : Nat) (ed : Bool),
      (∀ lvl t, headingMatch (content.take off) = some (lvl, t) →
        kindOf (processSpaceTriggeredFormatting (mkSel content p off ed)) =
          some (TriggerKind.heading lvl)) ∧
      (∀ t, headingMatch (content.take off) = none →
        listMatch (content.take off) = some t →
        kindOf (processSpaceTriggeredFormatting (mkSel content p off ed)) =
          some TriggerKind.list) ∧
      (∀ t, headingMatch (content.take off) = none →
        listMatch (content.take off) = none →
        blockquoteMatch (content.take off) = some t →
        kindOf (processSpaceTriggeredFormatting (mkSel content p off ed)) =
          some TriggerKind.blockquote) ∧
      (headingMatch (content.take off) = none →
        listMatch (content.take off) = none →
        blockquoteMatch (content.take off) = none →
        processSpaceTriggeredFormatting (mkSel content p off ed) =
          ProcResult.noop)) ∧
    (∀ (content : List Char) (p : Option ParentCtx) (off : Nat) (ed : Bool),
      (∀ i c, boldMatch content = some (i, c) →
        kindOf (processInlineFormatting (mkSel content p off ed)) =
          some TriggerKind.bold) ∧
      (∀ i c, boldMatch content = none → italicMatch content = some (i, c) →
        kindOf (processInlineFormatting (mkSel content p off ed)) =
          some TriggerKind.italic) ∧
      (∀ i c, boldMatch content = none → italicMatch content = none →
        codeMatch content = some (i, c) →
        kindOf (processInlineFormatting (mkSel content p off ed)) =
          some TriggerKind.code) ∧
      (boldMatch content = none → italicMatch content = none →
        codeMatch content = none →
        processInlineFormatting (mkSel content p off ed) =
          ProcResult.noop)) := by
  constructor
  · intro content p off ed
    refine ⟨?_, ?_, ?_, ?_⟩
    · intro lvl t hh
      simp [processSpaceTriggeredFormatting, mkSel, hh, kindOf]
    · intro t hh hl
      simp [processSpaceTriggeredFormatting, mkSel, hh, hl, kindOf]
    · intro t hh hl hq
      simp [processSpaceTriggeredFormatting, mkSel, hh, hl, hq, kindOf]
    · intro hh hl hq
      simp [processSpaceTriggeredFormatting, mkSel, hh, hl, hq]
  · intro content p off ed
    refine ⟨?_, ?_, ?_, ?_⟩
    · intro i c hb
      simp [processInlineFormatting, mkSel, hb, kindOf]
    · intro i c hb hi
      simp [processInlineFormatting, mkSel, hb, hi, kindOf]
    · intro i c hb hi hc
      simp [processInlineFormatting, mkSel, hb, hi, hc, kindOf]
    · intro hb hi hc
      simp [processInlineFormatting, mkSel, hb, hi, hc]

/-- C3 (witness): on `"**a**"` the bold kind fires. -/
theorem C3_witness :
    kindOf (processInlineFormatting
      (mkSel "**a**".data (some ⟨[], []⟩) 5 false)) =
      some TriggerKind.bold :=
  (C3_precedence.2 "**a**".data (some ⟨[], []⟩) 5 false).1 0 "a".data rfl

/-- C4 (counterexample): non-empty leftover text after a block match can
be dropped. In the run `"# a  "` with the caret at offset 4 (a space was
just typed between the two trailing spaces), the text after the caret is
the non-empty `" "`, yet the resulting tree holds only the heading — the
block rewrites keep trailing text only when it trims to non-empty, so
whitespace-only leftover text disappears. -/
theorem C4_cex_whitespace_leftover_dropped :
    processSpaceTriggeredFormatting
      (mkSel "# a  ".data (some ⟨[], []⟩) 4 false) =
      ProcResult.fired (TriggerKind.heading 1)
        (some ⟨[DomNode.elem "h1" [DomNode.text "a ".data]],
               Caret.inNode (DomNode.elem "h1" [DomNode.text "a ".data]) 1⟩) ∧
    "# a  ".data.drop 4 = [' '] ∧ ([' '] : List Char) ≠ [] := by
  refine ⟨rfl, rfl, by simp⟩

/-- C4 (amended): leftover text around a match is preserved in place.
For an inline rewrite the parent's new child list is exactly: the old
left siblings, then the text before the match as a plain text node (when
non-empty), then the new element, then the text after the match as a
plain text node (when non-empty), then the old right siblings — the
slices sit ahead of and after the new element and are never merged into
it. A block rewrite keeps the trailing text node after the new element
only when it contains a non-whitespace character (whitespace-only
trailing text is dropped, see the counterexample). In the concrete
`"# Title extra"` scenario (caret right after `"Title"`, then a typed
space) the heading's text is `"Title "` — which contains `"Title"` — and
the sibling text node after it is exactly `" extra"`. -/
theorem C4_leftover_text :
    (∀ (lvl : Nat) (t a : List Char) (p : ParentCtx) (s : Splice),
      replaceWithHeading lvl t a (some p) = some s →
      (jsTrimNonEmpty a = true →
        s.children =
          p.before ++ [mkElem ("h" ++ toString lvl) t, DomNode.text a] ++
            p.after) ∧
      (jsTrimNonEmpty a = false →
        s.children =
          p.before ++ [mkElem ("h" ++ toString lvl) t] ++ p.after)) ∧
    (∀ (tc : List Char) (i : Nat) (c : List Char) (p : ParentCtx)
        (s : Splice),
      replaceWithBold tc i c (some p) = some s →
      s.children =
        p.before ++
          (if tc.take i = [] then [] else [DomNode.text (tc.take i)]) ++
          [mkElem "strong" c] ++
          (if tc.drop (i + (c.length + 4)) = [] then []
            else [DomNode.text (tc.drop (i + (c.length + 4)))]) ++
          p.after) ∧
    processSpaceTriggeredFormatting
      (mkSel "# Title  extra".data (some ⟨[], []⟩) 8 false) =
      ProcResult.fired (TriggerKind.heading 1)
        (some ⟨[DomNode.elem "h1" [DomNode.text "Title ".data],
                DomNode.text " extra".data],
               Caret.inNode
                 (DomNode.elem "h1" [DomNode.text "Title ".data]) 1⟩) := by
  refine ⟨?_, ?_, rfl⟩
  · intro lvl t a p s h
    simp only [replaceWithHeading, Option.some.injEq] at h
    constructor
    · intro ht
      rw [← h]
      simp [ht]
    · intro ht
      rw [← h]
      simp [ht]
  · intro tc i c p s h
    simp only [replaceWithBold, Option.some.injEq] at h
    rw [← h]
    simp only [List.isEmpty_iff]

/-- C4 (witness): the heading conjunct at level 1 with text `"x"` and
trailing text `" y"` (which trims to non-empty and is kept). -/
theorem C4_witness :
    (⟨[DomNode.elem "h1" [DomNode.text "x".data], DomNode.text " y".data],
      Caret.inNode (DomNode.elem "h1" [DomNode.text "x".data]) 1⟩ :
        Splice).children =
      ([] : List DomNode) ++
        [mkElem ("h" ++ toString 1) "x".data, DomNode.text " y".data] ++
        ([] : List DomNode) :=
  (C4_leftover_text.1 1 "x".data " y".data ⟨[], []⟩
    ⟨[DomNode.elem "h1" [DomNode.text "x".data], DomNode.text " y".data],
     Caret.inNode (DomNode.elem "h1" [DomNode.text "x".data]) 1⟩ rfl).1 rfl

/-- C7 (counterexample): after an inline transform the caret does not
reference a position inside the newly created element: converting
`"**a**"` sets the caret `setStartAfter(strong)`, i.e. into the parent at
index 1, which is no `Caret.inNode` position at all. -/
theorem C7_cex_inline_caret_after_element :
    processInlineFormatting (mkSel "**a**".data (some ⟨[], []⟩) 5 false) =
      ProcResult.fired TriggerKind.bold
        (some ⟨[DomNode.elem "strong" [DomNode.text "a".data]],
               Caret.inParentAt 1⟩) ∧
    (∀ n off2, Caret.inParentAt 1 ≠ Caret.inNode n off2) := by
  refine ⟨rfl, ?_⟩
  intro n off2 h
  exact Caret.noConfusion h

/-- C7 (amended): every successful rewrite leaves the caret at a valid
position in the new tree, never in the removed text run: the three block
transforms put it inside the newly created element (at child offset equal
to its child count — for the list, inside the `li` that the inserted `ul`
wraps); the three inline transforms put it in the parent immediately
after the new element, an index that is at most the new child-list
length. -/
theorem C7_caret_placement :
    (∀ (lvl : Nat) (t a : List Char) (p : ParentCtx) (s : Splice),
      replaceWithHeading lvl t a (some p) = some s →
      ∃ el, s.caret = Caret.inNode el (childCount el) ∧ el ∈ s.children ∧
        isElem el = true) ∧
    (∀ (t a : List Char) (p : ParentCtx) (s : Splice),
      replaceWithList t a (some p) = some s →
      ∃ el host, s.caret = Caret.inNode el (childCount el) ∧
        host ∈ s.children ∧ el ∈ nodeChildren host ∧ isElem el = true) ∧
    (∀ (t a : List Char) (p : ParentCtx) (s : Splice),
      replaceWithBlockquote t a (some p) = some s →
      ∃ el, s.caret = Caret.inNode el (childCount el) ∧ el ∈ s.children ∧
        isElem el = true) ∧
    (∀ (tc : List Char) (i : Nat) (c : List Char) (p : ParentCtx)
        (s : Splice),
      replaceWithBold tc i c (some p) = some s →
      ∃ pre el post, s.children = pre ++ el :: post ∧
        s.caret = Caret.inParentAt (pre.length + 1) ∧
        pre.length + 1 ≤ s.children.length ∧ isElem el = true) ∧
    (∀ (tc : List Char) (i : Nat) (c : List Char) (p : ParentCtx)
        (s : Splice),
      replaceWithItalic tc i c (some p) = some s →
      ∃ pre el post, s.children = pre ++ el :: post ∧
        s.caret = Caret.inParentAt (pre.length + 1) ∧
        pre.length + 1 ≤ s.children.length ∧ isElem el = true) ∧
    (∀ (tc : List Char) (i : Nat) (c : List Char) (p : ParentCtx)
        (s : Splice),
      replaceWithCode tc i c (some p) = some s →
      ∃ pre el post, s.children = pre ++ el :: post ∧
        s.caret = Caret.inParentAt (pre.length + 1) ∧
        pre.length + 1 ≤ s.children.length ∧ isElem el = true) := by
  refine ⟨?_, ?_, ?_, ?_, ?_, ?_⟩
  · intro lvl t a p s h
    simp only [replaceWithHeading, Option.some.injEq] at h
    subst h
    exact ⟨mkElem ("h" ++ toString lvl) t, rfl, by simp, rfl⟩
  · intro t a p s h
    simp only [replaceWithList, Option.some.injEq] at h
    subst h
    exact ⟨mkElem "li" t, DomNode.elem "ul" [mkElem "li" t], rfl, by simp,
      by simp [nodeChildren], rfl⟩
  · intro t a p s h
    simp only [replaceWithBlockquote, Option.some.injEq] at h
    subst h
    exact ⟨mkElem "blockquote" t, rfl, by simp, rfl⟩
  · intro tc i c p s h
    simp only [replaceWithBold, Option.some.injEq] at h
    subst h
    refine ⟨p.before ++
        (if (tc.take i).isEmpty then [] else [DomNode.text (tc.take i)]),
      mkElem "strong" c,
      (if (tc.drop (i + (c.length + 4))).isEmpty then []
        else [DomNode.text (tc.drop (i + (c.length + 4)))]) ++ p.after,
      by simp, by simp [List.length_append], ?_, rfl⟩
    simp only [List.length_append, List.length_cons]
    omega
  · intro tc i c p s h
    simp only [replaceWithItalic, Option.some.injEq] at h
    subst h
    refine ⟨p.before ++
        (if (tc.take i).isEmpty then [] else [DomNode.text (tc.take i)]),
      mkElem "em" c,
      (if (tc.drop (i + (c.length + 2))).isEmpty then []
        else [DomNode.text (tc.drop (i + (c.length + 2)))]) ++ p.after,
      by simp, by simp [List.length_append], ?_, rfl⟩
    simp only [List.length_append, List.length_cons]
    omega
  · intro tc i c p s h
    simp only [replaceWithCode, Option.some.injEq] at h
    subst h
    refine ⟨p.before ++
        (if (tc.take i).isEmpty then [] else [DomNode.text (tc.take i)]),
      mkElem "code" c,
      (if (tc.drop (i + (c.length + 2))).isEmpty then []
        else [DomNode.text (tc.drop (i + (c.length + 2)))]) ++ p.after,
      by simp, by simp [List.length_append], ?_, rfl⟩
    simp only [List.length_append, List.length_cons]
    omega

/-- C7 (witness): the heading conjunct at a concrete rewrite. -/
theorem C7_witness :
    ∃ el,
      (⟨[DomNode.elem "h1" [DomNode.text "x".data]],
        Caret.inNode (DomNode.elem "h1" [DomNode.text "x".data]) 1⟩ :
          Splice).caret = Caret.inNode el (childCount el) ∧
      el ∈ (⟨[DomNode.elem "h1" [DomNode.text "x".data]],
        Caret.inNode (DomNode.elem "h1" [DomNode.text "x".data]) 1⟩ :
          Splice).children ∧
      isElem el = true :=
  C7_caret_placement.1 1 "x".data [] ⟨[], []⟩
    ⟨[DomNode.elem "h1" [DomNode.text "x".data]],
     Caret.inNode (DomNode.elem "h1" [DomNode.text "x".data]) 1⟩ rfl

/-- Helper: a successful heading rewrite leaves the caret in an element
container. -/
theorem caretContainer_heading (lvl : Nat) (t a : List Char)
    (pa : Option ParentCtx) (sp : Splice)
    (h : replaceWithHeading lvl t a pa = some sp) :
    caretContainer sp.caret = Container.element := by
  cases pa with
  | none => exact Option.noConfusion h
  | some p =>
    simp only [replaceWithHeading, Option.some.injEq] at h
    subst h
    rfl

/-- Helper: a successful list rewrite leaves the caret in an element
container. -/
theorem caretContainer_list (t a : List Char) (pa : Option ParentCtx)
    (sp : Splice) (h : replaceWithList t a pa = some sp) :
    caretContainer sp.caret = Container.element := by
  cases pa with
  | none => exact Option.noConfusion h
  | some p =>
    simp only [replaceWithList, Option.some.injEq] at h
    subst h
    rfl

/-- Helper: a successful blockquote rewrite leaves the caret in an element
container. -/
theorem caretContainer_blockquote (t a : List Char) (pa : Option ParentCtx)
    (sp : Splice) (h : replaceWithBlockquote t a pa = some sp) :
    caretContainer sp.caret = Container.element := by
  cases pa with
  | none => exact Option.noConfusion h
  | some p =>
    simp only [replaceWithBlockquote, Option.some.injEq] at h
    subst h
    rfl

/-- Helper: a successful bold rewrite leaves the caret in an element
container (the parent). -/
theorem caretContainer_bold (tc : List Char) (i : Nat) (c : List Char)
    (pa : Option ParentCtx) (sp : Splice)
    (h : replaceWithBold tc i c pa = some sp) :
    caretContainer sp.caret = Container.element := by
  cases pa with
  | none => exact Option.noConfusion h
  | some p =>
    simp only [replaceWithBold, Option.some.injEq] at h
    subst h
    rfl

/-- Helper: a successful italic rewrite leaves the caret in an element
container. -/
theorem caretContainer_italic (tc : List Char) (i : Nat) (c : List Char)
    (pa : Option ParentCtx) (sp : Splice)
    (h : replaceWithItalic tc i c pa = some sp) :
    caretContainer sp.caret = Container.element := by
  cases pa with
  | none => exact Option.noConfusion h
  | some p =>
    simp only [replaceWithItalic, Option.some.injEq] at h
    subst h
    rfl

/-- Helper: a successful inline-code rewrite leaves the caret in an
element container. -/
theorem caretContainer_code (tc : List Char) (i : Nat) (c : List Char)
    (pa : Option ParentCtx) (sp : Splice)
    (h : replaceWithCode tc i c pa = some sp) :
    caretContainer sp.caret = Container.element := by
  cases pa with
  | none => exact Option.noConfusion h
  | some p =>
    simp only [replaceWithCode, Option.some.injEq] at h
    subst h
    rfl

/-- Helper: any block transform that fires with a splice puts the caret
in an element container. -/
theorem space_fired_caret (sel : Option DomRange) (k : TriggerKind)
    (sp : Splice)
    (h : processSpaceTriggeredFormatting sel = ProcResult.fired k (some sp)) :
    caretContainer sp.caret = Container.element := by
  cases sel with
  | none => exact ProcResult.noConfusion h
  | some r =>
    obtain ⟨sc, off, ed⟩ := r
    cases sc with
    | element => exact ProcResult.noConfusion h
    | textRun content parent =>
      rcases hh : headingMatch (content.take off) with _ | ⟨lvl2, t2⟩
      · rcases hl : listMatch (content.take off) with _ | t2
        · rcases hq : blockquoteMatch (content.take off) with _ | t2
          · simp [processSpaceTriggeredFormatting, hh, hl, hq] at h
          · simp only [processSpaceTriggeredFormatting, hh, hl, hq,
              ProcResult.fired.injEq] at h
            exact caretContainer_blockquote _ _ _ _ h.2
        · simp only [processSpaceTriggeredFormatting, hh, hl,
            ProcResult.fired.injEq] at h
          exact caretContainer_list _ _ _ _ h.2
      · simp only [processSpaceTriggeredFormatting, hh,
          ProcResult.fired.injEq] at h
        exact caretContainer_heading _ _ _ _ _ h.2

/-- Helper: any inline transform that fires with a splice puts the caret
in an element container. -/
theorem inline_fired_caret (sel : Option DomRange) (k : TriggerKind)
    (sp : Splice)
    (h : processInlineFormatting sel = ProcResult.fired k (some sp)) :
    caretContainer sp.caret = Container.element := by
  cases sel with
  | none => exact ProcResult.noConfusion h
  | some r =>
    obtain ⟨sc, off, ed⟩ := r
    cases sc with
    | element => exact ProcResult.noConfusion h
    | textRun content parent =>
      rcases hb : boldMatch content with _ | ⟨i2, c2⟩
      · rcases hi : italicMatch content with _ | ⟨i2, c2⟩
        · rcases hc : codeMatch content with _ | ⟨i2, c2⟩
          · simp [processInlineFormatting, hb, hi, hc] at h
          · simp only [processInlineFormatting, hb, hi, hc,
              ProcResult.fired.injEq] at h
            exact caretContainer_code _ _ _ _ _ h.2
        · simp only [processInlineFormatting, hb, hi,
            ProcResult.fired.injEq] at h
          exact caretContainer_italic _ _ _ _ _ h.2
      · simp only [processInlineFormatting, hb,
          ProcResult.fired.injEq] at h
        exact caretContainer_bold _ _ _ _ _ h.2

/-- Helper: the first-match search succeeds only via a successful anchored
attempt on some suffix, with the same capture. -/
theorem findMatch_capture (tryAt : List Char → Option (List Char)) :
    ∀ (l : List Char) (i : Nat) (c : List Char),
      findMatch tryAt l = some (i, c) → ∃ suf, tryAt suf = some c := by
  intro l
  induction l with
  | nil => intro i c h; exact Option.noConfusion h
  | cons x tl ih =>
    intro i c h
    simp only [findMatch] at h
    cases htry : tryAt (x :: tl) with
    | some r =>
      rw [htry] at h
      simp only [Option.some.injEq, Prod.mk.injEq] at h
      exact ⟨x :: tl, h.2 ▸ htry⟩
    | none =>
      rw [htry] at h
      cases hfm : findMatch tryAt tl with
      | none => rw [hfm] at h; exact Option.noConfusion h
      | some q =>
        obtain ⟨q1, q2⟩ := q
        rw [hfm] at h
        simp only [Option.map_some', Option.some.injEq, Prod.mk.injEq] at h
        exact h.2 ▸ ih q1 q2 (by rw [hfm])

/-- Helper: the capture of the star-bold pattern contains no star. -/
theorem tryBoldStar_capture_no_star (suf c : List Char)
    (h : tryBoldStar suf = some c) : '*' ∉ c := by
  unfold tryBoldStar at h
  split at h
  · dsimp only at h
    split at h
    · simp only [Option.some.injEq] at h
      subst h
      intro hmem
      have := List.mem_takeWhile_imp hmem
      simp at this
    · exact Option.noConfusion h
  · exact Option.noConfusion h

/-- C5 (amended): a fired transform never immediately re-matches at the
caret it establishes: both for block and inline transforms the caret's
container is the new element or the parent — an element node, not a text
run — so re-running either detector at the post-transform caret is a
no-op; moreover the star-bold capture placed into the new `strong`
element contains no `*` delimiter at all. (Trigger text may survive
elsewhere in the tree, and for block transforms even inside the new
element's own text — see the counterexample.) -/
theorem C5_transform_consumes_match :
    (∀ (sel : Option DomRange) (k : TriggerKind) (sp : Splice),
      processSpaceTriggeredFormatting sel = ProcResult.fired k (some sp) →
      ∀ off ed,
        processSpaceTriggeredFormatting
          (some ⟨caretContainer sp.caret, off, ed⟩) = ProcResult.noop ∧
        processInlineFormatting
          (some ⟨caretContainer sp.caret, off, ed⟩) = ProcResult.noop) ∧
    (∀ (sel : Option DomRange) (k : TriggerKind) (sp : Splice),
      processInlineFormatting sel = ProcResult.fired k (some sp) →
      ∀ off ed,
        processSpaceTriggeredFormatting
          (some ⟨caretContainer sp.caret, off, ed⟩) = ProcResult.noop ∧
        processInlineFormatting
          (some ⟨caretContainer sp.caret, off, ed⟩) = ProcResult.noop) ∧
    (∀ (s : List Char) (i : Nat) (c : List Char),
      findMatch tryBoldStar s = some (i, c) → '*' ∉ c) := by
  refine ⟨?_, ?_, ?_⟩
  · intro sel k sp h off ed
    rw [space_fired_caret sel k sp h]
    exact ⟨rfl, rfl⟩
  · intro sel k sp h off ed
    rw [inline_fired_caret sel k sp h]
    exact ⟨rfl, rfl⟩
  · intro s i c h
    obtain ⟨suf, hsuf⟩ := findMatch_capture tryBoldStar s i c h
    exact tryBoldStar_capture_no_star suf c hsuf

/-- C5 (counterexample): trigger text can survive the rewrite inside the
resulting tree. Typing the space at the end of `"# # x"` converts the run
into an `h1` whose own text is `"# x "` — and that text still matches the
heading trigger, so the trigger text does exist in the resulting tree and
detection on that text run would match again. -/
theorem C5_cex_trigger_text_survives :
    processSpaceTriggeredFormatting
      (mkSel "# # x ".data (some ⟨[], []⟩) 6 false) =
      ProcResult.fired (TriggerKind.heading 1)
        (some ⟨[DomNode.elem "h1" [DomNode.text "# x ".data]],
               Caret.inNode (DomNode.elem "h1" [DomNode.text "# x ".data]) 1⟩) ∧
    headingMatch "# x ".data = some (1, "x ".data) := ⟨rfl, rfl⟩

/-- C5 (witness): re-running both detectors at the caret established by
the `"- "` list transform is a no-op. -/
theorem C5_witness :
    processSpaceTriggeredFormatting
      (some ⟨caretContainer (Caret.inNode (DomNode.elem "li" []) 0), 0,
             false⟩) = ProcResult.noop ∧
    processInlineFormatting
      (some ⟨caretContainer (Caret.inNode (DomNode.elem "li" []) 0), 0,
             false⟩) = ProcResult.noop :=
  C5_transform_consumes_match.1 (mkSel "- ".data (some ⟨[], []⟩) 2 false)
    TriggerKind.list
    ⟨[DomNode.elem "ul" [DomNode.elem "li" []]],
     Caret.inNode (DomNode.elem "li" []) 0⟩ rfl 0 false

/-- Helper: closed form of the backtracking search for `\s+(.+)$`. The
greedy engine settles on the largest feasible split `j0 = min j (|rest| -
1)`; the match succeeds exactly when `j0 ≥ 1` and the corresponding
capture contains no newline (any shorter split only adds characters to
the capture, so it cannot cure a newline). -/
theorem wsBacktrack_eq (rest : List Char) (j : Nat) :
    wsBacktrack rest j =
      if 1 ≤ min j (rest.length - 1) ∧
          (rest.drop (min j (rest.length - 1))).contains '\n' = false then
        some (rest.drop (min j (rest.length - 1)))
      else none := by
  induction j with
  | zero => simp [wsBacktrack]
  | succ j ih =>
    rw [wsBacktrack]
    rcases Nat.lt_or_ge (j + 1) rest.length with hlen | hlen
    · have hmin : min (j + 1) (rest.length - 1) = j + 1 := by omega
      have hempty : (rest.drop (j + 1)).isEmpty = false := by
        have h1 : (rest.drop (j + 1)).length = rest.length - (j + 1) :=
          List.length_drop _ _
        cases hd : rest.drop (j + 1) with
        | nil => rw [hd] at h1; simp at h1; omega
        | cons y ys => rfl
      by_cases hnl : (rest.drop (j + 1)).contains '\n' = true
      · have hminj : min j (rest.length - 1) = j := by omega
        have hmem : '\n' ∈ rest.drop j := by
          have hsub : rest.drop (j + 1) = (rest.drop j).drop 1 := by
            rw [List.drop_drop]
          exact List.mem_of_mem_drop (hsub ▸ List.elem_iff.mp hnl)
        have hcj : (rest.drop j).contains '\n' = true := List.elem_iff.mpr hmem
        rw [ih, hempty, hnl, hmin, hminj]
        have hmem1 : '\n' ∈ rest.drop (j + 1) := List.elem_iff.mp hnl
        simp [hmem, hmem1]
      · rw [Bool.not_eq_true] at hnl
        have hj1 : 1 ≤ j + 1 := by omega
        rw [hempty, hnl, hmin]
        simp at hnl
        simp [hnl, hj1]
    · have hd : rest.drop (j + 1) = [] := List.drop_eq_nil_of_le (by omega)
      have h1 : min (j + 1) (rest.length - 1) = rest.length - 1 := by omega
      have h2 : min j (rest.length - 1) = rest.length - 1 := by omega
      rw [hd, ih, h1, h2]
      simp

/-- C2 (amended): on a space insertion the detector classifies the text
before the caret as a heading exactly when it starts with 1–6 `#`
characters (not more) followed by at least one whitespace character and
at least one further character — which may itself be whitespace — and the
captured remainder (the text after the maximal whitespace run, or the
run's last character when the run extends to the caret) contains no
newline; the level is the count of `#` characters, and the rewriter
builds an element of tag `h<level>` holding exactly the captured
remainder as its text. -/
theorem C2_heading_detector :
    (∀ s, headingMatch s = headingSpecMatch s) ∧
    (∀ (lvl : Nat) (t a : List Char) (p : ParentCtx) (s2 : Splice),
      replaceWithHeading lvl t a (some p) = some s2 →
      mkElem ("h" ++ toString lvl) t ∈ s2.children) := by
  constructor
  · intro s
    unfold headingMatch headingSpecMatch
    dsimp only
    by_cases hk : 1 ≤ countLeading '#' s ∧ countLeading '#' s ≤ 6
    · rw [if_pos hk, wsBacktrack_eq]
      by_cases hA : 1 ≤ min ((s.drop (countLeading '#' s)).takeWhile
            jsWhitespace).length ((s.drop (countLeading '#' s)).length - 1) ∧
          ((s.drop (countLeading '#' s)).drop
            (min ((s.drop (countLeading '#' s)).takeWhile
              jsWhitespace).length
              ((s.drop (countLeading '#' s)).length - 1))).contains '\n' =
            false
      · rw [if_pos hA, if_pos ⟨hk.1, hk.2, hA.1, hA.2⟩]
        rfl
      · rw [if_neg hA, if_neg]
        · rfl
        · intro hB
          exact hA ⟨hB.2.2.1, hB.2.2.2⟩
    · rw [if_neg hk, if_neg]
      intro hB
      exact hk ⟨hB.1, hB.2.1⟩
  · intro lvl t a p s2 h
    simp only [replaceWithHeading, Option.some.injEq] at h
    subst h
    simp

/-- C2 (counterexample): the text `"#  "` — one hash and two spaces —
is classified as a heading (level 1, captured text a single space) even
though not a single non-space character follows the hashes, contradicting
the required "at least one non-space character". -/
theorem C2_cex_no_nonspace_needed :
    headingMatch "#  ".data = some (1, [' ']) ∧
    "  ".data.all jsWhitespace = true := ⟨rfl, rfl⟩

/-- C2 (witness): the constructed element for a level-2 heading. -/
theorem C2_witness :
    mkElem ("h" ++ toString 2) "hi".data ∈
      [DomNode.elem "h2" [DomNode.text "hi".data]] :=
  C2_heading_detector.2 2 "hi".data [] ⟨[], []⟩
    ⟨[DomNode.elem "h2" [DomNode.text "hi".data]],
     Caret.inNode (DomNode.elem "h2" [DomNode.text "hi".data]) 1⟩ rfl

/-- C10 (counterexample): the save/load round trip is not guaranteed by
the program. Two saves within the same wall-clock second (here second 5)
produce rows with equal `updated_at`; `ORDER BY updated_at DESC LIMIT 1`
has no tiebreaker and SQLite's order among equal keys is unspecified, so
after saving `"a"` then `"b"` the latest-row SELECT may return the
earlier content `"a"`, which differs from the last saved content
`"b"`. -/
theorem C10_cex_timestamp_tie :
    saveContent (some ⟨[], 1⟩) "a" 5 =
      Except.ok ⟨[⟨1, "a", 5⟩], 2⟩ ∧
    saveContent (some ⟨[⟨1, "a", 5⟩], 2⟩) "b" 5 =
      Except.ok ⟨[⟨1, "a", 5⟩, ⟨2, "b", 5⟩], 3⟩ ∧
    getLatestAdmits (some ⟨[⟨1, "a", 5⟩, ⟨2, "b", 5⟩], 3⟩)
      (Except.ok (some "a")) ∧
    (Except.ok (some "a") : Except String (Option String)) ≠
      Except.ok (some "b") := by
  refine ⟨rfl, rfl,
    Or.inr ⟨⟨1, "a", 5⟩, List.mem_cons_self _ _, by decide, rfl⟩, ?_⟩
  intro h
  simp at h

/-- C10 (amended): persistence is append-only: a successful
`saveContent` appends exactly one new record and leaves every previously
stored record unchanged, and on a table with no rows the only admissible
result of `getLatestContent` is null (and null is admissible). The
save/load round trip holds under a freshness condition: when the save's
timestamp strictly exceeds every stored record's — in particular
whenever no two saves share a second — every admissible result of a
following `getLatestContent` (no intervening save) is exactly the saved
content, and that result is admissible. -/
theorem C10_append_only_roundtrip (d : DbState) (c : String) (now : Nat)
    (hfresh : ∀ r ∈ d.rows, r.updatedAt < now) :
    ∃ d2, saveContent (some d) c now = Except.ok d2 ∧
      d2.rows = d.rows ++ [⟨d.nextId, c, now⟩] ∧
      (∀ r ∈ d.rows, r ∈ d2.rows) ∧
      (∀ out, getLatestAdmits (some d2) out → out = Except.ok (some c)) ∧
      getLatestAdmits (some d2) (Except.ok (some c)) ∧
      (∀ n out, getLatestAdmits (some (⟨[], n⟩ : DbState)) out →
        out = Except.ok none) ∧
      (∀ n, getLatestAdmits (some (⟨[], n⟩ : DbState))
        (Except.ok none)) := by
  refine ⟨⟨d.rows ++ [(⟨d.nextId, c, now⟩ : DocRow)], d.nextId + 1⟩,
    rfl, rfl, ?_, ?_, ?_, ?_, ?_⟩
  · intro r hr
    exact List.mem_append_left _ hr
  · intro out hout
    simp only [getLatestAdmits] at hout
    rcases hout with ⟨hemp, _⟩ | ⟨r, hrmem, hrmax, hout⟩
    · exact absurd hemp (by simp)
    · have hnow : now ≤ r.updatedAt :=
        hrmax ⟨d.nextId, c, now⟩
          (List.mem_append_right _ (List.mem_cons_self _ _))
      rcases List.mem_append.mp hrmem with hold | hnew
      · exact absurd (Nat.lt_of_lt_of_le (hfresh r hold) hnow)
          (Nat.lt_irrefl _)
      · have hr2 : r = ⟨d.nextId, c, now⟩ := List.mem_singleton.mp hnew
        rw [hout, hr2]
  · refine Or.inr ⟨⟨d.nextId, c, now⟩,
      List.mem_append_right _ (List.mem_cons_self _ _), ?_, rfl⟩
    intro q hq
    rcases List.mem_append.mp hq with hold | hnew
    · exact Nat.le_of_lt (hfresh q hold)
    · rw [List.mem_singleton.mp hnew]
  · intro n out hout
    simp only [getLatestAdmits] at hout
    rcases hout with ⟨_, h⟩ | ⟨r, hrmem, _, _⟩
    · exact h
    · simp at hrmem
  · intro n
    exact Or.inl ⟨rfl, rfl⟩

/-- C10 (witness): a save at second 7 on the freshly initialized empty
database. -/
theorem C10_witness :
    ∃ d2, saveContent (some ⟨[], 1⟩) "hello" 7 = Except.ok d2 ∧
      d2.rows = [] ++ [⟨1, "hello", 7⟩] ∧
      (∀ r ∈ ([] : List DocRow), r ∈ d2.rows) ∧
      (∀ out, getLatestAdmits (some d2) out →
        out = Except.ok (some "hello")) ∧
      getLatestAdmits (some d2) (Except.ok (some "hello")) ∧
      (∀ n out, getLatestAdmits (some (⟨[], n⟩ : DbState)) out →
        out = Except.ok none) ∧
      (∀ n, getLatestAdmits (some (⟨[], n⟩ : DbState))
        (Except.ok none)) :=
  C10_append_only_roundtrip ⟨[], 1⟩ "hello" 7 (by simp)

end Cozy
